import Mathlib

/-!
Verification of the papercuts mutation-and-consolidation engine.

This file gives a shallow embedding of the core of the repository:

* `Ternary` models `src/ternary.py` (the exhaustive variant generator),
  working on sources represented as `List Char` so that the textual
  splices `s[:a] + r + s[b:]` of the Python code become `take`/`drop`
  operations.
* `PcCore` models `src/pc_core.py` (Rewrite/RewriteSet, mux encoding,
  run construction and consolidation) together with the outcome
  recording of `src/ec.py`.  The external pyslang CST is modelled by
  the inductive `SV`: tokens carry their leading trivia, interior
  nodes carry a numeric identity used for the identity-based node
  matching of the Python code, and `SyntaxTree.fromText(s).root` is
  modelled by the constructor `SV.raw` whose rendering is `s` itself.
-/

namespace Ternary

/-- One located ternary site of `remove_ternaries` (`src/ternary.py`):
the dict with keys start/end/original/true_text/false_text built from
`sourceRange` offsets of the node and of its two operand ranges. -/
structure TernaryInfo where
  start : Nat
  stop : Nat
  original : List Char
  true_text : List Char
  false_text : List Char
deriving DecidableEq, Repr

/-- Model of `Rewrite` dataclass of `src/ternary.py`; the Python field `branch`
is the string `'true'`/`'false'`, modelled as a `Bool` (`true` branch
= `true`). -/
structure Rewrite where
  start_offset : Nat
  end_offset : Nat
  original_text : List Char
  replacement_text : List Char
  branch : Bool
deriving DecidableEq, Repr

/-- Model of `TernaryVariant` dataclass of `src/ternary.py`. -/
structure TernaryVariant where
  source : List Char
  rewrites : List Rewrite
deriving DecidableEq, Repr

/-- Python slice `s[a:b]`. -/
def sliceText (s : List Char) (a b : Nat) : List Char :=
  (s.take b).drop a

/-- The textual splice `s[:a] + r + s[b:]` used by the variant loop. -/
def spliceAt (s : List Char) (a b : Nat) (r : List Char) : List Char :=
  s.take a ++ r ++ s.drop b

/-- The site info built from the source text, as in the
`ternary_info.append({...})` loop. -/
def mkInfo (src : List Char) (start stop ls le rs re : Nat) : TernaryInfo :=
  { start := start, stop := stop,
    original := sliceText src start stop,
    true_text := sliceText src ls le,
    false_text := sliceText src rs re }

/-- Model of `itertools.product(['true','false'], repeat=n)`: all branch-choice
vectors of length `n`, first coordinate varying slowest, `true` first. -/
def allChoices : Nat → List (List Bool)
  | 0 => [[]]
  | n + 1 => (allChoices n).map (true :: ·) ++ (allChoices n).map (false :: ·)

/-- The chosen replacement text for one site. -/
def choiceText (info : TernaryInfo) (b : Bool) : List Char :=
  if b then info.true_text else info.false_text

/-- The inner loop `for i in reversed(range(len(ternary_info)))`: the
replacement of the LAST site is applied first, so processing the list
head-first here applies its splice last — exactly the descending-offset
order of the Python loop. -/
def applyDescending (pairs : List (TernaryInfo × Bool)) (src : List Char) : List Char :=
  match pairs with
  | [] => src
  | p :: rest => spliceAt (applyDescending rest src) p.1.start p.1.stop (choiceText p.1 p.2)

/-- The `Rewrite` record built for one site and one choice (kept in
original order by the `rewrites.insert(0, rewrite)` of the source). -/
def mkRewrite (info : TernaryInfo) (b : Bool) : Rewrite :=
  { start_offset := info.start, end_offset := info.stop,
    original_text := info.original,
    replacement_text := choiceText info b,
    branch := b }

/-- Model of `remove_ternaries` of `src/ternary.py`, with the located sites
(`ternary_info`) passed explicitly. -/
def remove_ternaries (src : List Char) (infos : List TernaryInfo) : List TernaryVariant :=
  if infos.isEmpty then [{ source := src, rewrites := [] }]
  else
    (allChoices infos.length).map (fun ch =>
      let pairs := infos.zip ch
      { source := applyDescending pairs src,
        rewrites := pairs.map (fun p => mkRewrite p.1 p.2) })

/-- Non-overlap of the located sites, in ascending source order, all
within the source: each site starts no earlier than `pos` and ends
before the next begins. -/
def sitesOkB (pos len : Nat) : List TernaryInfo → Bool
  | [] => true
  | i :: rest =>
      decide (pos ≤ i.start) && decide (i.start ≤ i.stop) && decide (i.stop ≤ len) &&
      sitesOkB i.stop len rest

/-- The simultaneous-replacement semantics: the final text is the
untouched segment before each site, then its chosen replacement, then
the untouched tail.  Earlier offsets staying valid under the
descending-order application is exactly `applyDescending` agreeing with
this function. -/
def spliceAll (src : List Char) (pos : Nat) : List (TernaryInfo × Bool) → List Char
  | [] => src.drop pos
  | p :: rest => sliceText src pos p.1.start ++ choiceText p.1 p.2 ++ spliceAll src p.1.stop rest

end Ternary

namespace PcCore

/-- Model of the external pyslang CST.  `tok` is a token carrying its
leading trivia and its text.  `tern` is `ConditionalExpressionSyntax`
(predicate, `?` token, left operand, `:` token, right operand); `ifS`
and `ifElseS` are `ConditionalStatementSyntax` without and with an
else clause (if token, open paren, predicate, close paren, statement,
and for `ifElseS` the else keyword and the else clause body).  `seq2`
is a generic interior node with two children.  `raw` models
`SyntaxTree.fromText(s).root`, a freshly parsed node whose rendering
is `s`.  Interior nodes carry a numeric id: Python object identity,
which the matchers of `pc_core.py` compare by `==`. -/
inductive SV where
  | tok (trivia text : String)
  | tern (id : Nat) (p q l c r : SV)
  | ifS (id : Nat) (it op p cp st : SV)
  | ifElseS (id : Nat) (it op p cp st ek eb : SV)
  | seq2 (id : Nat) (a b : SV)
  | raw (id : Nat) (text : String)
deriving DecidableEq, Repr

/-- Text rendering (`str(node)` / `SyntaxPrinter.printFile`): every
token is printed with its leading trivia. -/
def render : SV → String
  | .tok tv tx => tv ++ tx
  | .tern _ p q l c r => render p ++ render q ++ render l ++ render c ++ render r
  | .ifS _ it op p cp st => render it ++ render op ++ render p ++ render cp ++ render st
  | .ifElseS _ it op p cp st ek eb =>
      render it ++ render op ++ render p ++ render cp ++ render st ++ render ek ++ render eb
  | .seq2 _ a b => render a ++ render b
  | .raw _ tx => tx

/-- The concatenated raw text of `node.getFirstToken().trivia`, as the
`old_trivia` loops of `pc_core.py` compute it. -/
def SV.leadTrivia : SV → String
  | .tok tv _ => tv
  | .tern _ p _ _ _ _ => p.leadTrivia
  | .ifS _ it _ _ _ _ => it.leadTrivia
  | .ifElseS _ it _ _ _ _ _ _ => it.leadTrivia
  | .seq2 _ a _ => a.leadTrivia
  | .raw _ _ => ""

/-- Model of `node.getFirstToken().rawText`. -/
def SV.firstTokenRawText : SV → String
  | .tok _ tx => tx
  | .tern _ p _ _ _ _ => p.firstTokenRawText
  | .ifS _ it _ _ _ _ => it.firstTokenRawText
  | .ifElseS _ it _ _ _ _ _ _ => it.firstTokenRawText
  | .seq2 _ a _ => a.firstTokenRawText
  | .raw _ _ => ""

/-- Attribute access `node.predicate` on the external CST, modelled
totally: on the conditional constructs it is the condition child; on
any other node kind the external behaviour is not defined by the
sources under verification and the access is modelled as the node
itself (benignly, following the spec, which states that the mux chain
embeds the original condition of the construct). -/
def SV.predicate : SV → SV
  | .tern _ p _ _ _ _ => p
  | .ifS _ _ _ p _ _ => p
  | .ifElseS _ _ _ p _ _ _ _ => p
  | n => n

/-- Attribute access `node.left` (true operand of a ternary). -/
def SV.left : SV → SV
  | .tern _ _ _ l _ _ => l
  | n => n

/-- Attribute access `node.right` (false operand of a ternary). -/
def SV.right : SV → SV
  | .tern _ _ _ _ _ r => r
  | n => n

/-- Attribute access `node.statement` (then-branch of an if). -/
def SV.statement : SV → SV
  | .ifS _ _ _ _ _ st => st
  | .ifElseS _ _ _ _ _ st _ _ => st
  | n => n

/-- Attribute access `node.elseClause` followed by `.clause`: `none`
when the statement has no else clause. -/
def SV.elseClauseClause : SV → Option SV
  | .ifElseS _ _ _ _ _ _ _ eb => some eb
  | _ => none

/-- Model of `pyslang.syntax.rewrite(tree, handler)` for a handler of the shape
`if m(node): rewriter.replace(node, f(node))`: a top-down traversal
that substitutes `f node` for every matching node and does not descend
into replacements; non-matching nodes are rebuilt with rewritten
children. -/
def rewriteSV (m : SV → Bool) (f : SV → SV) : SV → SV
  | .tok tv tx => if m (.tok tv tx) then f (.tok tv tx) else .tok tv tx
  | .tern i p q l c r =>
      if m (.tern i p q l c r) then f (.tern i p q l c r)
      else .tern i (rewriteSV m f p) (rewriteSV m f q) (rewriteSV m f l)
        (rewriteSV m f c) (rewriteSV m f r)
  | .ifS i it op p cp st =>
      if m (.ifS i it op p cp st) then f (.ifS i it op p cp st)
      else .ifS i (rewriteSV m f it) (rewriteSV m f op) (rewriteSV m f p)
        (rewriteSV m f cp) (rewriteSV m f st)
  | .ifElseS i it op p cp st ek eb =>
      if m (.ifElseS i it op p cp st ek eb) then f (.ifElseS i it op p cp st ek eb)
      else .ifElseS i (rewriteSV m f it) (rewriteSV m f op) (rewriteSV m f p)
        (rewriteSV m f cp) (rewriteSV m f st) (rewriteSV m f ek) (rewriteSV m f eb)
  | .seq2 i a b =>
      if m (.seq2 i a b) then f (.seq2 i a b)
      else .seq2 i (rewriteSV m f a) (rewriteSV m f b)
  | .raw i tx => if m (.raw i tx) then f (.raw i tx) else .raw i tx

/-- No node of the tree matches `m`. -/
def noMatchB (m : SV → Bool) : SV → Bool
  | .tok tv tx => !m (.tok tv tx)
  | .tern i p q l c r =>
      !m (.tern i p q l c r) && noMatchB m p && noMatchB m q && noMatchB m l &&
        noMatchB m c && noMatchB m r
  | .ifS i it op p cp st =>
      !m (.ifS i it op p cp st) && noMatchB m it && noMatchB m op && noMatchB m p &&
        noMatchB m cp && noMatchB m st
  | .ifElseS i it op p cp st ek eb =>
      !m (.ifElseS i it op p cp st ek eb) && noMatchB m it && noMatchB m op &&
        noMatchB m p && noMatchB m cp && noMatchB m st && noMatchB m ek && noMatchB m eb
  | .seq2 i a b => !m (.seq2 i a b) && noMatchB m a && noMatchB m b
  | .raw i tx => !m (.raw i tx)

end PcCore

namespace PcCore

/-- A one-hole context over `SV`, used to state that a rewrite touches
only the matched node.  A frame places the hole under a `seq2` child,
at the predicate of a ternary, or at the predicate of an if statement
(without or with else clause). -/
inductive Ctx where
  | hole
  | seqL (id : Nat) (c : Ctx) (b : SV)
  | seqR (id : Nat) (a : SV) (c : Ctx)
  | ternP (id : Nat) (c : Ctx) (q l co r : SV)
  | ifP (id : Nat) (it op : SV) (c : Ctx) (cp st : SV)
  | ifeP (id : Nat) (it op : SV) (c : Ctx) (cp st ek eb : SV)
deriving DecidableEq, Repr

/-- Fill the hole of a context. -/
def Ctx.plug : Ctx -> SV -> SV
  | .hole, t => t
  | .seqL i c b, t => .seq2 i (c.plug t) b
  | .seqR i a c, t => .seq2 i a (c.plug t)
  | .ternP i c q l co r, t => .tern i (c.plug t) q l co r
  | .ifP i it op c cp st, t => .ifS i it op (c.plug t) cp st
  | .ifeP i it op c cp st ek eb, t => .ifElseS i it op (c.plug t) cp st ek eb

/-- The rendered text strictly before the hole. -/
def Ctx.pre : Ctx -> String
  | .hole => ""
  | .seqL _ c _ => c.pre
  | .seqR _ a c => render a ++ c.pre
  | .ternP _ c _ _ _ _ => c.pre
  | .ifP _ it op c _ _ => render it ++ render op ++ c.pre
  | .ifeP _ it op c _ _ _ _ => render it ++ render op ++ c.pre

/-- The rendered text strictly after the hole. -/
def Ctx.post : Ctx -> String
  | .hole => ""
  | .seqL _ c b => c.post ++ render b
  | .seqR _ _ c => c.post
  | .ternP _ c q l co r => c.post ++ render q ++ render l ++ render co ++ render r
  | .ifP _ _ _ c cp st => c.post ++ render cp ++ render st
  | .ifeP _ _ _ c cp st ek eb =>
      c.post ++ render cp ++ render st ++ render ek ++ render eb

/-- Graft `d` into the hole of `c`. -/
def Ctx.comp : Ctx -> Ctx -> Ctx
  | .hole, d => d
  | .seqL i c b, d => .seqL i (c.comp d) b
  | .seqR i a c, d => .seqR i a (c.comp d)
  | .ternP i c q l co r, d => .ternP i (c.comp d) q l co r
  | .ifP i it op c cp st, d => .ifP i it op (c.comp d) cp st
  | .ifeP i it op c cp st ek eb, d => .ifeP i it op (c.comp d) cp st ek eb

/-- The context is safe for matcher `m` around `target`: no spine node
containing the hole matches (so the traversal reaches the hole), and no
node beside the hole matches (so nothing else is replaced). -/
def Ctx.safeB (c : Ctx) (m : SV -> Bool) (target : SV) : Bool :=
  match c with
  | .hole => true
  | .seqL i c b =>
      !m (.seq2 i (c.plug target) b) && c.safeB m target && noMatchB m b
  | .seqR i a c =>
      !m (.seq2 i a (c.plug target)) && noMatchB m a && c.safeB m target
  | .ternP i c q l co r =>
      !m (.tern i (c.plug target) q l co r) && c.safeB m target && noMatchB m q &&
        noMatchB m l && noMatchB m co && noMatchB m r
  | .ifP i it op c cp st =>
      !m (.ifS i it op (c.plug target) cp st) && noMatchB m it && noMatchB m op &&
        c.safeB m target && noMatchB m cp && noMatchB m st
  | .ifeP i it op c cp st ek eb =>
      !m (.ifElseS i it op (c.plug target) cp st ek eb) && noMatchB m it &&
        noMatchB m op && c.safeB m target && noMatchB m cp && noMatchB m st &&
        noMatchB m ek && noMatchB m eb

end PcCore

namespace PcCore

/-- The `Rewrite` dataclass of `src/pc_core.py`: a per-site mutation
descriptor with its matchers and renderer closures. -/
structure Rewrite where
  start_offset : Nat
  end_offset : Nat
  replacement_text : String
  matcher : SV → Bool
  mux_matcher : SV → Bool
  get_replacement : SV → Bool → SV
  get_mux_replacement : SV → Nat → SV
  num_selections : Nat
  start_index : Nat := 0

/-- Model of `Rewrite.apply(self, tree, index)`: replace the matched node by
itself for index 0, by the `False`-branch rendering for index 1 and by
the `True`-branch rendering otherwise. -/
def Rewrite.apply (r : Rewrite) (tree : SV) (index : Nat) : SV :=
  rewriteSV r.matcher
    (fun node =>
      if index == 0 then node
      else if index == 1 then r.get_replacement node false
      else r.get_replacement node true)
    tree

/-- Model of `Rewrite.apply_mux(self, tree)`: replace the node accepted by the
mux matcher with the mux rendering at this rewrite's `start_index`. -/
def Rewrite.apply_mux (r : Rewrite) (tree : SV) : SV :=
  rewriteSV r.mux_matcher (fun node => r.get_mux_replacement node r.start_index) tree

/-- The `RewriteSet` dataclass: ordered rewrites plus the running
selection-index total. -/
structure RewriteSet where
  rewrites : List Rewrite := []
  current_index : Nat := 0

/-- Model of `RewriteSet.add_rewrite`: assign the running total as the new
rewrite's `start_index`, append it, and advance the total by its
selection count. -/
def RewriteSet.add_rewrite (s : RewriteSet) (r : Rewrite) : RewriteSet :=
  { rewrites := s.rewrites ++ [{ r with start_index := s.current_index }],
    current_index := s.current_index + r.num_selections }

/-- Adding a whole list of rewrites in order. -/
def addAll (s : RewriteSet) (rs : List Rewrite) : RewriteSet :=
  rs.foldl RewriteSet.add_rewrite s

/-- The fresh `RewriteSet()`. -/
def emptySet : RewriteSet := {}

/-- Model of `RewriteSet.apply_muxes`: one traversal; at each node every rewrite
whose mux matcher accepts it calls `rewriter.replace(node, ...)` on the
ORIGINAL node in registration order, so with several matches the later
`replace` overwrites the earlier one. -/
def RewriteSet.apply_muxes (s : RewriteSet) (tree : SV) : SV :=
  rewriteSV (fun node => !(s.rewrites.filter (fun rw => rw.mux_matcher node)).isEmpty)
    (fun node =>
      (s.rewrites.filter (fun rw => rw.mux_matcher node)).foldl
        (fun _ rw => rw.get_mux_replacement node rw.start_index) node)
    tree

/-- The `Run` dataclass of `src/pc_core.py`. -/
structure Run where
  canonical_fname : String
  mod_fname : String
  input_tree : SV
  output_tree : SV
  rewrite : Rewrite
  index : Nat := 0
  wrapper_fname : String := ""
  valid : Bool := false
  output : String := ""

/-- Model of `consolidate_runs(tree, runs)`: at every node collect the runs
whose rewrite matcher accepts it; with more than one match, warn and
substitute the first run's `True`-branch rendering; with exactly one
match, substitute with branch `False if rw.index == 1 else False`
(which is constantly `False`); run outcomes (`valid`) are never
consulted. -/
def consolidate_runs (tree : SV) (runs : List Run) : SV :=
  rewriteSV (fun node => !(runs.filter (fun rn => rn.rewrite.matcher node)).isEmpty)
    (fun node =>
      match runs.filter (fun rn => rn.rewrite.matcher node) with
      | [] => node
      | [rn] => rn.rewrite.get_replacement node (if rn.index == 1 then false else false)
      | rn :: _ :: _ => rn.rewrite.get_replacement node true)
    tree

/-- Model of `make_matcher(target)` of both locators: Python `node == target`,
object identity on CST nodes. -/
def make_matcher (target : SV) : SV → Bool := fun node => node == target

/-- Model of `make_mux_matcher(target)` of both locators: `node ==
target.predicate`. -/
def make_mux_matcher (target : SV) : SV → Bool := fun node => node == target.predicate

/-- The f-string of both `get_mux_replacement` closures:
`(pc_sel{s+1} | (!pc_sel{s} & (cond)))`. -/
def muxText (sel_index : Nat) (cond : String) : String :=
  "(pc_sel" ++ toString (sel_index + 1) ++ " | (!pc_sel" ++ toString sel_index ++
    " & (" ++ cond ++ ")))"

/-- Model of `get_replacement(node, use_else)` of `remove_if_conditionals`: the
leading trivia of the construct is prepended to the chosen branch and
the result reparsed (`SyntaxTree.fromText(...).root`). -/
def if_get_replacement (node : SV) (use_else : Bool) : SV :=
  if use_else then
    match node.elseClauseClause with
    | some cl => SV.raw 0 (node.leadTrivia ++ render cl)
    | none => SV.raw 0 node.leadTrivia
  else SV.raw 0 (node.leadTrivia ++ render node.statement)

/-- Model of `get_mux_replacement(node, sel_index)` of `remove_if_conditionals`:
the matched node is the predicate, rendered with `str(node)`. -/
def if_get_mux_replacement (node : SV) (sel_index : Nat) : SV :=
  SV.raw 0 (muxText sel_index (render node))

/-- Model of `get_replacement(node, use_left)` of `remove_ternary_conditionals`:
the chosen operand itself, no trivia handling. -/
def tern_get_replacement (node : SV) (use_left : Bool) : SV :=
  if use_left then node.left else node.right

/-- Model of `get_mux_replacement(node, sel_index)` of
`remove_ternary_conditionals`: renders `str(node.predicate)` of the
matched node. -/
def tern_get_mux_replacement (node : SV) (sel_index : Nat) : SV :=
  SV.raw 0 (muxText sel_index (render node.predicate))

/-- The `Rewrite` built by `remove_if_conditionals` for one located
conditional statement. -/
def mkIfRewrite (target : SV) : Rewrite :=
  { start_offset := 0, end_offset := 0, replacement_text := "",
    matcher := make_matcher target,
    mux_matcher := make_mux_matcher target,
    get_replacement := if_get_replacement,
    get_mux_replacement := if_get_mux_replacement,
    num_selections := 2 }

/-- The `Rewrite` built by `remove_ternary_conditionals` for one
located conditional expression. -/
def mkTernRewrite (target : SV) : Rewrite :=
  { start_offset := 0, end_offset := 0,
    replacement_text := target.left.firstTokenRawText,
    matcher := make_matcher target,
    mux_matcher := make_mux_matcher target,
    get_replacement := tern_get_replacement,
    get_mux_replacement := tern_get_mux_replacement,
    num_selections := 2 }

/-- Model of `remove_if_conditionals(tree, rewrites)` with the visit-ordered
located nodes passed explicitly: adds one rewrite per site. -/
def remove_if_conditionals (targets : List SV) (s : RewriteSet) : RewriteSet :=
  targets.foldl (fun acc t => acc.add_rewrite (mkIfRewrite t)) s

/-- Model of `remove_ternary_conditionals(tree, rewrites)` with the
visit-ordered located nodes passed explicitly. -/
def remove_ternary_conditionals (targets : List SV) (s : RewriteSet) : RewriteSet :=
  targets.foldl (fun acc t => acc.add_rewrite (mkTernRewrite t)) s

/-- The run-construction loop of `main`: for every rewrite and every
`i < num_selections`, a `Run` with per-rewrite index `i` whose output
tree is `rewrite.apply(sw, i + 1)` renamed to `{fname}_pc{start+i}`
(`ren` abstracts the external textual `rename_module`). -/
def mkRuns (ren : SV → String → SV) (fname : String) (sw : SV) (rws : List Rewrite) :
    List Run :=
  rws.foldl
    (fun acc r =>
      acc ++ (List.range r.num_selections).map (fun i =>
        { canonical_fname := fname,
          mod_fname := fname ++ "_pc" ++ toString (r.start_index + i),
          input_tree := sw,
          output_tree := ren (r.apply sw (i + 1)) (fname ++ "_pc" ++ toString (r.start_index + i)),
          rewrite := r,
          index := i }))
    []

end PcCore

namespace PcCore

/-- The select-port name `pc_sel{i}` used both by `add_select_inputs`
and by the mux renderers. -/
def selPortName (i : Nat) : String := "pc_sel" ++ toString i

/-- The names declared by `add_select_inputs`: `pc_sel{i+1}` for
`i in range(num_inputs)`, i.e. `pc_sel1 .. pc_sel{num_inputs}`. -/
def selPortNames (num_inputs : Nat) : List String :=
  (List.range num_inputs).map (fun i => selPortName (i + 1))

/-- The `sel_str` of `add_select_inputs`. -/
def sel_str (num_inputs : Nat) : String :=
  "input logic " ++ String.intercalate ", " (selPortNames num_inputs)

/-- Model of `add_select_inputs(tree, num_inputs)`: the textual splice
`source[:open_paren+1] + sel_str + (", " if ports else "") +
source[open_paren+1:]` of the source, on a module source decomposed as
`pre ++ "(" ++ ports ++ ")" ++ tail` around its port list. -/
def add_select_inputs (pre ports tail : String) (num_inputs : Nat) : String :=
  pre ++ "(" ++ sel_str num_inputs ++ (if ports = "" then "" else ", ") ++
    ports ++ ")" ++ tail

/-- The TCL control script generated by `generate_tcl_script`
(`src/ec.py`): everything runs inside `catch`; an internal tool error
exits 1, otherwise the exit code is 0 exactly when the result string is
"proven". -/
def tcl_exit_code (internal_error : Bool) (proven : Bool) : Int :=
  if internal_error then 1 else if proven then 0 else 1

/-- Model of `run_jasper(run)` of `src/ec.py` after `await process.wait()`:
record `valid = (returncode == 0)` and the captured combined
stdout/stderr; no exception path exists for a non-zero exit. -/
def run_jasper (run : Run) (returncode : Int) (captured : String) : Run :=
  { run with valid := returncode == 0, output := captured }

/-- The declaration type of a `DataDeclarationSyntax` as
`shrink_bits_mux.get_dimensions` inspects it: an integer type with or
without a range dimension `[msb:lsb]`, or any other type syntax. -/
inductive DeclType where
  | integerType (dims : Option (Nat × Nat))
  | otherType
deriving DecidableEq, Repr

/-- A data declaration: its type and its declarator names. -/
structure DataDeclaration where
  type : DeclType
  declNames : List String
deriving DecidableEq, Repr

/-- Model of `get_dimensions(node)`: `msb - lsb + 1` when the type is an
integer type with dimensions, else 1 (Python int arithmetic). -/
def get_dimensions (node : DataDeclaration) : Int :=
  match node.type with
  | .integerType (some (msb, lsb)) => (msb : Int) - (lsb : Int) + 1
  | .integerType none => 1
  | .otherType => 1

/-- What `shrink_bits_mux.add_decl_handler` does at one declaration. -/
inductive DeclAction where
  | skipped
  | rewritten (newWidth : Int) (shadowNames : List String)
  | raisedNotImplemented
deriving DecidableEq, Repr

/-- Model of `add_decl_handler(node, rewriter)`: only when the computed width
exceeds 1 does it act; it then inserts the shadow declaration (one bit
narrower, names suffixed `_papercut`) — the `NotImplementedError`
branch fires only for a non-integer type; otherwise the handler simply
returns.  The second component is the list of messages printed by the
handler on that path (there are none). -/
def add_decl_handler (node : DataDeclaration) : DeclAction × List String :=
  if get_dimensions node > 1 then
    match node.type with
    | .integerType _ =>
        (.rewritten (get_dimensions node - 1) (node.declNames.map (· ++ "_papercut")), [])
    | .otherType => (.raisedNotImplemented, [])
  else (.skipped, [])

/-- The declaration pass of `shrink_bits_mux`: handle each declaration
in order; a raised `NotImplementedError` aborts the whole pass. -/
def add_decl_pass : List DataDeclaration → Except String (List DeclAction × List String)
  | [] => .ok ([], [])
  | n :: rest =>
      match add_decl_handler n with
      | (.raisedNotImplemented, _) => .error "NotImplementedError"
      | (act, logs) =>
          match add_decl_pass rest with
          | .ok (acts, ls) => .ok (act :: acts, logs ++ ls)
          | .error e => .error e

/-- Whether an `Except` finished without raising. -/
def exceptOk {ε α : Type} : Except ε α → Bool
  | .ok _ => true
  | .error _ => false

end PcCore

namespace PcCore

/-- The rewrites as stored after `add_rewrite`, with start indices
assigned consecutively from `idx`. -/
def assignFrom (idx : Nat) : List Rewrite → List Rewrite
  | [] => []
  | r :: rest => { r with start_index := idx } :: assignFrom (idx + r.num_selections) rest

/-- Running totals of a list of counts, starting at `idx`. -/
def runningTotals (idx : Nat) : List Nat → List Nat
  | [] => []
  | n :: rest => idx :: runningTotals (idx + n) rest

/-- The selection-index ranges of the assigned rewrites, in order. -/
def indexRanges (rs : List Rewrite) : List (List Nat) :=
  rs.map (fun r => List.range' r.start_index r.num_selections)


end PcCore

namespace PcCore

/-- Example ternary site `b ? c : d` (node identity 10). -/
def exTern : SV :=
  SV.tern 10 (SV.tok " " "b") (SV.tok " " "?") (SV.tok " " "c") (SV.tok " " ":")
    (SV.tok " " "d")

/-- Example tree rendering `assign a = b ? c : d;`. -/
def exTree : SV :=
  SV.seq2 1 (SV.tok "" "assign a =") (SV.seq2 2 exTern (SV.tok "" ";"))

/-- Example ternary site whose leading trivia is a block comment. -/
def exTernC : SV :=
  SV.tern 11 (SV.tok "/* keep */ " "b") (SV.tok " " "?") (SV.tok " " "c")
    (SV.tok " " ":") (SV.tok " " "d")

/-- Example tree rendering `assign a =/* keep */ b ? c : d;`. -/
def exTreeC : SV :=
  SV.seq2 1 (SV.tok "" "assign a =") (SV.seq2 2 exTernC (SV.tok "" ";"))

/-- Example if/else statement (node identity 12). -/
def exIf : SV :=
  SV.ifElseS 12 (SV.tok "" "if") (SV.tok " " "(") (SV.tok "" "b") (SV.tok "" ")")
    (SV.tok " " "x = c;") (SV.tok " " "else") (SV.tok " " "x = d;")

/-- The two runs `main` builds for the single ternary rewrite of
`exTree`, with both prover invocations recorded as failures by
`run_jasper` (exit code 1). -/
def exRunsFailed : List Run :=
  (mkRuns (fun t _ => t) "m" exTree (addAll emptySet [mkTernRewrite exTern]).rewrites).map
    (fun rn => run_jasper rn 1 "Error during formal verification")

/-- Two-element rewrite list used to instantiate the index-allocation
theorems. -/
def c2rs : List Rewrite :=
  [mkTernRewrite (SV.raw 21 "b ? c : d"), mkIfRewrite (SV.raw 22 "ifstmt")]

end PcCore

namespace Ternary

/-- Example source `assign a = b ? c : d;` of the self-test at the
bottom of `src/ternary.py`, reduced to the assign line. -/
def exSrc : List Char := "assign a = b ? c : d;".data

/-- The single located site of `exSrc`: the ternary spans offsets
11..20, its true operand is `c` (15..16) and its false operand is `d`
(19..20). -/
def exInfo : TernaryInfo := mkInfo exSrc 11 20 15 16 19 20

end Ternary

namespace Ternary

theorem length_allChoices (n : Nat) : (allChoices n).length = 2 ^ n := by
  induction n with
  | zero => rfl
  | succ n ih => simp [allChoices, ih, Nat.pow_succ]; ring

theorem mem_allChoices_length {n : Nat} {c : List Bool} (h : c ∈ allChoices n) :
    c.length = n := by
  induction n generalizing c with
  | zero => simp [allChoices] at h; simp [h]
  | succ n ih =>
    simp only [allChoices, List.mem_append, List.mem_map] at h
    rcases h with ⟨a, ha, rfl⟩ | ⟨a, ha, rfl⟩ <;> simp [ih ha]

theorem nodup_allChoices (n : Nat) : (allChoices n).Nodup := by
  induction n with
  | zero => simp [allChoices]
  | succ n ih =>
    simp only [allChoices]
    rw [List.nodup_append]
    refine ⟨ih.map (fun a b h => by injection h), ih.map (fun a b h => by injection h), ?_⟩
    intro x hx hy
    simp only [List.mem_map] at hx hy
    rcases hx with ⟨a, _, rfl⟩
    rcases hy with ⟨b, _, hb⟩
    injection hb with h1 _
    exact Bool.noConfusion h1

theorem applyDescending_eq_spliceAll (pairs : List (TernaryInfo × Bool)) (src : List Char)
    (pos : Nat) (hlen : sitesOkB pos src.length (pairs.map (·.1)) = true) :
    applyDescending pairs src = src.take pos ++ spliceAll src pos pairs := by
  induction pairs generalizing pos with
  | nil => simp [applyDescending, spliceAll]
  | cons p rest ih =>
    simp only [List.map_cons, sitesOkB, Bool.and_eq_true, decide_eq_true_eq] at hlen
    obtain ⟨⟨⟨h1, h2⟩, h3⟩, h4⟩ := hlen
    have hmid := ih p.1.stop h4
    simp only [applyDescending, spliceAll, hmid, spliceAt]
    have hlentake : (src.take p.1.stop).length = p.1.stop := by
      simp [List.length_take, Nat.min_eq_left h3]
    have htake : (src.take p.1.stop ++ spliceAll src p.1.stop rest).take p.1.start
        = src.take p.1.start := by
      rw [List.take_append_of_le_length (by omega)]
      rw [List.take_take, Nat.min_eq_left h2]
    have hdrop : (src.take p.1.stop ++ spliceAll src p.1.stop rest).drop p.1.stop
        = spliceAll src p.1.stop rest := List.drop_left' hlentake
    rw [htake, hdrop]
    have hfront : src.take pos ++ sliceText src pos p.1.start = src.take p.1.start := by
      have hts : src.take pos = (src.take p.1.start).take pos := by
        rw [List.take_take, Nat.min_eq_left h1]
      rw [sliceText, hts, List.take_append_drop]
    simp only [← List.append_assoc, hfront]

end Ternary

namespace PcCore

theorem rewriteSV_of_noMatch {m : SV → Bool} {f : SV → SV} {t : SV}
    (h : noMatchB m t = true) : rewriteSV m f t = t := by
  induction t with
  | tok tv tx => simp_all [noMatchB, rewriteSV]
  | tern i p q l c r ihp ihq ihl ihc ihr =>
      simp only [noMatchB, Bool.and_eq_true, Bool.not_eq_true'] at h
      simp [rewriteSV, h.1.1.1.1.1, ihp h.1.1.1.1.2, ihq h.1.1.1.2, ihl h.1.1.2,
        ihc h.1.2, ihr h.2]
  | ifS i it op p cp st ih1 ih2 ih3 ih4 ih5 =>
      simp only [noMatchB, Bool.and_eq_true, Bool.not_eq_true'] at h
      simp [rewriteSV, h.1.1.1.1.1, ih1 h.1.1.1.1.2, ih2 h.1.1.1.2, ih3 h.1.1.2,
        ih4 h.1.2, ih5 h.2]
  | ifElseS i it op p cp st ek eb ih1 ih2 ih3 ih4 ih5 ih6 ih7 =>
      simp only [noMatchB, Bool.and_eq_true, Bool.not_eq_true'] at h
      simp [rewriteSV, h.1.1.1.1.1.1.1, ih1 h.1.1.1.1.1.1.2, ih2 h.1.1.1.1.1.2,
        ih3 h.1.1.1.1.2, ih4 h.1.1.1.2, ih5 h.1.1.2, ih6 h.1.2, ih7 h.2]
  | seq2 i a b iha ihb =>
      simp only [noMatchB, Bool.and_eq_true, Bool.not_eq_true'] at h
      simp [rewriteSV, h.1.1, iha h.1.2, ihb h.2]
  | raw i tx => simp_all [noMatchB, rewriteSV]
theorem plug_comp (c d : Ctx) (t : SV) : (c.comp d).plug t = c.plug (d.plug t) := by
  induction c with
  | hole => rfl
  | seqL i c b ih => simp [Ctx.comp, Ctx.plug, ih]
  | seqR i a c ih => simp [Ctx.comp, Ctx.plug, ih]
  | ternP i c q l co r ih => simp [Ctx.comp, Ctx.plug, ih]
  | ifP i it op c cp st ih => simp [Ctx.comp, Ctx.plug, ih]
  | ifeP i it op c cp st ek eb ih => simp [Ctx.comp, Ctx.plug, ih]

theorem render_plug (c : Ctx) (t : SV) :
    render (c.plug t) = c.pre ++ render t ++ c.post := by
  induction c with
  | hole => simp [Ctx.plug, Ctx.pre, Ctx.post]
  | seqL i c b ih => simp [Ctx.plug, Ctx.pre, Ctx.post, render, ih, String.append_assoc]
  | seqR i a c ih => simp [Ctx.plug, Ctx.pre, Ctx.post, render, ih, String.append_assoc]
  | ternP i c q l co r ih =>
      simp [Ctx.plug, Ctx.pre, Ctx.post, render, ih, String.append_assoc]
  | ifP i it op c cp st ih =>
      simp [Ctx.plug, Ctx.pre, Ctx.post, render, ih, String.append_assoc]
  | ifeP i it op c cp st ek eb ih =>
      simp [Ctx.plug, Ctx.pre, Ctx.post, render, ih, String.append_assoc]

theorem rewriteSV_plug {m : SV -> Bool} {f : SV -> SV} {c : Ctx} {target : SV}
    (hm : m target = true) (hs : c.safeB m target = true) :
    rewriteSV m f (c.plug target) = c.plug (f target) := by
  induction c with
  | hole => simp [Ctx.plug, rewriteSV]; cases target <;> simp [rewriteSV, hm]
  | seqL i c b ih =>
      simp only [Ctx.safeB, Bool.and_eq_true, Bool.not_eq_true'] at hs
      simp [Ctx.plug, rewriteSV, hs.1.1, ih hs.1.2, rewriteSV_of_noMatch hs.2]
  | seqR i a c ih =>
      simp only [Ctx.safeB, Bool.and_eq_true, Bool.not_eq_true'] at hs
      simp [Ctx.plug, rewriteSV, hs.1.1, ih hs.2, rewriteSV_of_noMatch hs.1.2]
  | ternP i c q l co r ih =>
      simp only [Ctx.safeB, Bool.and_eq_true, Bool.not_eq_true'] at hs
      simp [Ctx.plug, rewriteSV, hs.1.1.1.1.1, ih hs.1.1.1.1.2,
        rewriteSV_of_noMatch hs.1.1.1.2, rewriteSV_of_noMatch hs.1.1.2,
        rewriteSV_of_noMatch hs.1.2, rewriteSV_of_noMatch hs.2]
  | ifP i it op c cp st ih =>
      simp only [Ctx.safeB, Bool.and_eq_true, Bool.not_eq_true'] at hs
      simp [Ctx.plug, rewriteSV, hs.1.1.1.1.1, ih hs.1.1.2,
        rewriteSV_of_noMatch hs.1.1.1.1.2, rewriteSV_of_noMatch hs.1.1.1.2,
        rewriteSV_of_noMatch hs.1.2, rewriteSV_of_noMatch hs.2]
  | ifeP i it op c cp st ek eb ih =>
      simp only [Ctx.safeB, Bool.and_eq_true, Bool.not_eq_true'] at hs
      simp [Ctx.plug, rewriteSV, hs.1.1.1.1.1.1.1, ih hs.1.1.1.1.2,
        rewriteSV_of_noMatch hs.1.1.1.1.1.1.2, rewriteSV_of_noMatch hs.1.1.1.1.1.2,
        rewriteSV_of_noMatch hs.1.1.1.2, rewriteSV_of_noMatch hs.1.1.2,
        rewriteSV_of_noMatch hs.1.2, rewriteSV_of_noMatch hs.2]
theorem addAll_rewrites (s : RewriteSet) (rs : List Rewrite) :
    (addAll s rs).rewrites = s.rewrites ++ assignFrom s.current_index rs ∧
    (addAll s rs).current_index = s.current_index + (rs.map (·.num_selections)).sum := by
  induction rs generalizing s with
  | nil => simp [addAll, assignFrom]
  | cons r rest ih =>
    have h := ih (s.add_rewrite r)
    simp only [addAll, List.foldl_cons] at *
    refine ⟨?_, ?_⟩
    · rw [h.1]
      simp [RewriteSet.add_rewrite, assignFrom, List.append_assoc]
    · rw [h.2]
      simp [RewriteSet.add_rewrite]
      omega

theorem assignFrom_length (idx : Nat) (rs : List Rewrite) :
    (assignFrom idx rs).length = rs.length := by
  induction rs generalizing idx with
  | nil => rfl
  | cons r rest ih => simp [assignFrom, ih]

theorem assignFrom_map_start (idx : Nat) (rs : List Rewrite) :
    (assignFrom idx rs).map (·.start_index) = runningTotals idx (rs.map (·.num_selections)) := by
  induction rs generalizing idx with
  | nil => rfl
  | cons r rest ih => simp [assignFrom, runningTotals, ih]

theorem assignFrom_map_num (idx : Nat) (rs : List Rewrite) :
    (assignFrom idx rs).map (·.num_selections) = rs.map (·.num_selections) := by
  induction rs generalizing idx with
  | nil => rfl
  | cons r rest ih => simp [assignFrom, ih]

theorem runningTotals_get (idx : Nat) (ns : List Nat) (i : Nat) (h : i < ns.length) :
    (runningTotals idx ns)[i]? = some (idx + (ns.take i).sum) := by
  induction ns generalizing idx i with
  | nil => simp at h
  | cons n rest ih =>
    cases i with
    | zero => simp [runningTotals]
    | succ j =>
      simp only [runningTotals, List.getElem?_cons_succ]
      rw [ih (idx + n) j (by simpa using h)]
      simp [List.take_succ_cons, Nat.add_assoc]

theorem assignFrom_indexRanges_flatten (idx : Nat) (rs : List Rewrite) :
    (indexRanges (assignFrom idx rs)).flatten =
      List.range' idx ((rs.map (·.num_selections)).sum) := by
  induction rs generalizing idx with
  | nil => simp [indexRanges, assignFrom]
  | cons r rest ih =>
    simp only [indexRanges, assignFrom, List.map_cons, List.flatten_cons, List.sum_cons]
    rw [show ({ r with start_index := idx } : Rewrite).num_selections = r.num_selections from rfl]
    rw [show (List.map (fun r => List.range' r.start_index r.num_selections)
      (assignFrom (idx + r.num_selections) rest)).flatten =
      (indexRanges (assignFrom (idx + r.num_selections) rest)).flatten from rfl]
    rw [ih (idx + r.num_selections)]
    rw [List.range'_append_1, Nat.add_comm]

end PcCore

namespace PcCore

theorem add_decl_handler_ne_raised (n : DataDeclaration) :
    (add_decl_handler n).1 ≠ DeclAction.raisedNotImplemented := by
  rcases n with ⟨t, names⟩
  cases t with
  | integerType d =>
      simp only [add_decl_handler]
      split <;> simp
  | otherType =>
      simp [add_decl_handler, get_dimensions]

end PcCore

/-- Claim C1 (code bug): evaluation at the failing input.  `exTree`
contains one ternary site; `main` builds two runs for its rewrite and
both prover invocations FAIL (`run_jasper .. 1 ..`), yet
`consolidate_runs` — which never consults `Run.valid` — still replaces
the node: both runs' matchers accept the site, so the multi-match arm
substitutes the first run's `True`-branch rendering, turning
`assign a = b ? c : d;` into `assign a = c;`.  The claim requires the
node to be left unchanged when no run passed. -/
theorem c1_consolidation_ignores_outcomes :
    PcCore.exRunsFailed.map (·.valid) = [false, false] ∧
    PcCore.render PcCore.exTree = "assign a = b ? c : d;" ∧
    PcCore.render (PcCore.consolidate_runs PcCore.exTree PcCore.exRunsFailed) =
      "assign a = c;" ∧
    PcCore.consolidate_runs PcCore.exTree PcCore.exRunsFailed ≠ PcCore.exTree := by
  refine ⟨rfl, rfl, rfl, ?_⟩
  decide

/-- Claim C2: `RewriteSet.add_rewrite` is index-additive — starting
from the fresh set, the i-th added rewrite's `start_index` is the sum
of the selection counts of all previously added rewrites, and the
per-rewrite ranges `[start_index, start_index + num_selections)`
concatenate, in order, to exactly `[0, total_selections)`: no gaps and
no overlaps. -/
theorem c2_index_allocation (rs : List PcCore.Rewrite) :
    (∀ i, i < rs.length →
      ((PcCore.addAll PcCore.emptySet rs).rewrites[i]?.map (·.start_index)) =
        some (((rs.take i).map (·.num_selections)).sum)) ∧
    (PcCore.indexRanges (PcCore.addAll PcCore.emptySet rs).rewrites).flatten =
      List.range ((rs.map (·.num_selections)).sum) := by
  have h := PcCore.addAll_rewrites PcCore.emptySet rs
  have hrw : (PcCore.addAll PcCore.emptySet rs).rewrites = PcCore.assignFrom 0 rs := by
    simpa [PcCore.emptySet] using h.1
  constructor
  · intro i hi
    rw [hrw, ← List.getElem?_map, PcCore.assignFrom_map_start,
      PcCore.runningTotals_get 0 _ i (by simpa using hi)]
    simp [List.map_take]
  · rw [hrw, PcCore.assignFrom_indexRanges_flatten, List.range_eq_range']

/-- Witness for C2 at a concrete two-rewrite list: the second rewrite's
`start_index` is the first one's selection count. -/
theorem c2_index_allocation_witness :
    1 < PcCore.c2rs.length ∧
      ((PcCore.addAll PcCore.emptySet PcCore.c2rs).rewrites[1]?.map (·.start_index)) =
        some (((PcCore.c2rs.take 1).map (·.num_selections)).sum) :=
  ⟨by decide, (c2_index_allocation PcCore.c2rs).1 1 (by decide)⟩

/-- Claim C5: a run's recorded outcome is a pass exactly when the
prover subprocess exits 0; the generated TCL script exits 0 only when
the proof succeeded and no internal error occurred (internal errors are
caught and exit 1), and `run_jasper` records any non-zero exit as a
plain fail — it has no exception path. -/
theorem c5_pass_iff_exit_zero :
    (∀ (run : PcCore.Run) (rc : Int) (cap : String),
      ((PcCore.run_jasper run rc cap).valid = true ↔ rc = 0)) ∧
    (∀ ie pr, (PcCore.tcl_exit_code ie pr = 0 ↔ ie = false ∧ pr = true)) ∧
    (∀ (run : PcCore.Run) (ie pr : Bool) (cap : String),
      ((PcCore.run_jasper run (PcCore.tcl_exit_code ie pr) cap).valid = false ↔
        ie = true ∨ pr = false)) := by
  refine ⟨?_, ?_, ?_⟩
  · intro run rc cap
    simp [PcCore.run_jasper]
  · intro ie pr
    cases ie <;> cases pr <;> simp [PcCore.tcl_exit_code]
  · intro run ie pr cap
    cases ie <;> cases pr <;> simp [PcCore.run_jasper, PcCore.tcl_exit_code]

/-- Claim C6 (amended): a declaration whose type the bit-shrink pass
cannot rewrite (a non-integer type) is skipped and the pass continues
with the remaining sites — but silently: the handler prints no log
message on that path, and its `NotImplementedError` branch is
unreachable because only integer-typed declarations can report a width
greater than 1 (so the whole declaration pass always completes). -/
theorem c6_unsupported_construct_skipped_silently :
    (∀ names, PcCore.add_decl_handler ⟨PcCore.DeclType.otherType, names⟩ =
      (PcCore.DeclAction.skipped, [])) ∧
    (∀ nodes, PcCore.exceptOk (PcCore.add_decl_pass nodes) = true) := by
  constructor
  · intro names
    rfl
  · intro nodes
    induction nodes with
    | nil => rfl
    | cons n rest ih =>
      have hne := PcCore.add_decl_handler_ne_raised n
      simp only [PcCore.add_decl_pass]
      rcases hh : PcCore.add_decl_handler n with ⟨act, logs⟩
      rw [hh] at hne
      cases act with
      | raisedNotImplemented => exact absurd rfl hne
      | skipped =>
        rcases hr : PcCore.add_decl_pass rest with e | ⟨acts, ls⟩
        · rw [hr] at ih
          simp [PcCore.exceptOk] at ih
        · rfl
      | rewritten w sh =>
        rcases hr : PcCore.add_decl_pass rest with e | ⟨acts, ls⟩
        · rw [hr] at ih
          simp [PcCore.exceptOk] at ih
        · rfl

/-- Claim C6 counterexample: at a concrete non-integer declaration the
site is indeed skipped and processing continues, but the list of
messages logged by the handler is EMPTY — the claimed "skipped with a
log message" does not hold at this input. -/
theorem c6_counterexample :
    PcCore.add_decl_handler ⟨PcCore.DeclType.otherType, ["x"]⟩ =
      (PcCore.DeclAction.skipped, []) ∧
    (PcCore.add_decl_handler ⟨PcCore.DeclType.otherType, ["x"]⟩).2 = ([] : List String) :=
  ⟨rfl, rfl⟩

/-- Claim C3: for `n` independently located (non-overlapping,
source-ordered) two-branch ternary sites, the exhaustive generator
returns exactly `2 ^ n` variants; their branch-choice vectors are
pairwise distinct; and every variant's source equals the
simultaneous-replacement splice of its chosen texts — which is exactly
what applying the replacements in descending-offset order achieves,
earlier offsets staying valid after later substitutions. -/
theorem c3_exhaustive_variants (src : List Char) (infos : List Ternary.TernaryInfo)
    (h : Ternary.sitesOkB 0 src.length infos = true) :
    (Ternary.remove_ternaries src infos).length = 2 ^ infos.length ∧
    ((Ternary.remove_ternaries src infos).map (fun v => v.rewrites.map (·.branch))).Nodup ∧
    (Ternary.remove_ternaries src infos).map (·.source) =
      (Ternary.allChoices infos.length).map
        (fun ch => Ternary.spliceAll src 0 (infos.zip ch)) := by
  by_cases hinf : infos.isEmpty
  · have : infos = [] := List.isEmpty_iff.mp hinf
    subst this
    refine ⟨rfl, ?_, ?_⟩
    · simp [Ternary.remove_ternaries]
    · simp [Ternary.remove_ternaries, Ternary.allChoices, Ternary.spliceAll]
  · have hlen : ∀ ch ∈ Ternary.allChoices infos.length, ch.length = infos.length :=
      fun ch hc => Ternary.mem_allChoices_length hc
    refine ⟨?_, ?_, ?_⟩
    · simp [Ternary.remove_ternaries, hinf, Ternary.length_allChoices]
    · simp only [Ternary.remove_ternaries, hinf, Bool.false_eq_true, if_false,
        List.map_map]
      have heq : (Ternary.allChoices infos.length).map
          ((fun v : Ternary.TernaryVariant => v.rewrites.map (·.branch)) ∘
            (fun ch =>
              { source := Ternary.applyDescending (infos.zip ch) src,
                rewrites := (infos.zip ch).map (fun p => Ternary.mkRewrite p.1 p.2) })) =
          (Ternary.allChoices infos.length).map id := by
        apply List.map_congr_left
        intro ch hc
        simp only [Function.comp, List.map_map, id]
        have : ((fun x : Ternary.TernaryInfo × Bool => x.2) =
            (Prod.snd : Ternary.TernaryInfo × Bool → Bool)) := rfl
        calc ((infos.zip ch).map fun p => (Ternary.mkRewrite p.1 p.2).branch)
            = (infos.zip ch).map Prod.snd := by
              apply List.map_congr_left
              intro p _
              rfl
          _ = ch := List.map_snd_zip infos ch (le_of_eq (hlen ch hc))
      rw [heq, List.map_id]
      exact Ternary.nodup_allChoices infos.length
    · simp only [Ternary.remove_ternaries, hinf, Bool.false_eq_true, if_false,
        List.map_map]
      apply List.map_congr_left
      intro ch hc
      simp only [Function.comp]
      have hfst : (infos.zip ch).map (·.1) = infos :=
        List.map_fst_zip infos ch (ge_of_eq (hlen ch hc))
      have := Ternary.applyDescending_eq_spliceAll (infos.zip ch) src 0 (by rw [hfst]; exact h)
      simpa using this

/-- Witness for C3 on the one-site source `assign a = b ? c : d;`:
the generator returns exactly two variants. -/
theorem c3_exhaustive_variants_witness :
    Ternary.sitesOkB 0 Ternary.exSrc.length [Ternary.exInfo] = true ∧
    (Ternary.remove_ternaries Ternary.exSrc [Ternary.exInfo]).length =
      2 ^ ([Ternary.exInfo] : List Ternary.TernaryInfo).length :=
  ⟨by decide, (c3_exhaustive_variants Ternary.exSrc [Ternary.exInfo] (by decide)).1⟩

namespace PcCore

theorem rewriteSV_id (m : SV → Bool) (t : SV) : rewriteSV m (fun n => n) t = t := by
  induction t with
  | tok tv tx => simp [rewriteSV]
  | tern i p q l c r ihp ihq ihl ihc ihr => simp [rewriteSV, ihp, ihq, ihl, ihc, ihr]
  | ifS i it op p cp st ih1 ih2 ih3 ih4 ih5 => simp [rewriteSV, ih1, ih2, ih3, ih4, ih5]
  | ifElseS i it op p cp st ek eb ih1 ih2 ih3 ih4 ih5 ih6 ih7 =>
      simp [rewriteSV, ih1, ih2, ih3, ih4, ih5, ih6, ih7]
  | seq2 i a b iha ihb => simp [rewriteSV, iha, ihb]
  | raw i tx => simp [rewriteSV]

theorem apply_zero (r : Rewrite) (t : SV) : r.apply t 0 = t := by
  have h : (fun node : SV =>
      if (0 : Nat) == 0 then node
      else if (0 : Nat) == 1 then r.get_replacement node false
      else r.get_replacement node true) = fun n : SV => n := by
    funext node
    simp
  rw [Rewrite.apply, h, rewriteSV_id]

theorem apply_one (r : Rewrite) (t : SV) :
    r.apply t 1 = rewriteSV r.matcher (fun n => r.get_replacement n false) t := by
  rw [Rewrite.apply]
  congr 1

theorem apply_two (r : Rewrite) (t : SV) :
    r.apply t 2 = rewriteSV r.matcher (fun n => r.get_replacement n true) t := by
  rw [Rewrite.apply]
  congr 1

theorem comp_pre (c d : Ctx) : (c.comp d).pre = c.pre ++ d.pre := by
  induction c with
  | hole => simp [Ctx.comp, Ctx.pre]
  | seqL i c b ih => simp [Ctx.comp, Ctx.pre, ih]
  | seqR i a c ih => simp [Ctx.comp, Ctx.pre, ih, String.append_assoc]
  | ternP i c q l co r ih => simp [Ctx.comp, Ctx.pre, ih]
  | ifP i it op c cp st ih => simp [Ctx.comp, Ctx.pre, ih, String.append_assoc]
  | ifeP i it op c cp st ek eb ih => simp [Ctx.comp, Ctx.pre, ih, String.append_assoc]

theorem comp_post (c d : Ctx) : (c.comp d).post = d.post ++ c.post := by
  induction c with
  | hole => simp [Ctx.comp, Ctx.post]
  | seqL i c b ih => simp [Ctx.comp, Ctx.post, ih, String.append_assoc]
  | seqR i a c ih => simp [Ctx.comp, Ctx.post, ih]
  | ternP i c q l co r ih => simp [Ctx.comp, Ctx.post, ih, String.append_assoc]
  | ifP i it op c cp st ih => simp [Ctx.comp, Ctx.post, ih, String.append_assoc]
  | ifeP i it op c cp st ek eb ih => simp [Ctx.comp, Ctx.post, ih, String.append_assoc]

theorem sv_beq_self (t : SV) : (t == t) = true := by
  simp

end PcCore

/-- Claim C10: `apply(tree, 0)` returns the tree unchanged (the matched
node is replaced by itself), `apply` passes `False` to the branch
renderer for index 1 and `True` for index 2; for a ternary rewrite that
substitutes the false operand (index 1) or the true operand (index 2),
for an if-conditional rewrite the then-statement (index 1) or the
else-clause body — only the leading trivia when there is no else
clause — (index 2); and the run built by `main` with per-rewrite branch
index `i` calls `apply(sw, i + 1)`, hence exercises the renderer's
`False` branch for `i = 0` and its `True` branch for `i = 1`. -/
theorem c10_apply_branch_semantics :
    (∀ (r : PcCore.Rewrite) (t : PcCore.SV), r.apply t 0 = t) ∧
    (∀ (r : PcCore.Rewrite) (t : PcCore.SV),
      r.apply t 1 =
        PcCore.rewriteSV r.matcher (fun n => r.get_replacement n false) t) ∧
    (∀ (r : PcCore.Rewrite) (t : PcCore.SV),
      r.apply t 2 =
        PcCore.rewriteSV r.matcher (fun n => r.get_replacement n true) t) ∧
    (∀ i p q l c rr,
      PcCore.tern_get_replacement (PcCore.SV.tern i p q l c rr) false = rr ∧
      PcCore.tern_get_replacement (PcCore.SV.tern i p q l c rr) true = l) ∧
    (∀ i it op p cp st,
      PcCore.if_get_replacement (PcCore.SV.ifS i it op p cp st) false =
        PcCore.SV.raw 0 ((PcCore.SV.ifS i it op p cp st).leadTrivia ++ PcCore.render st) ∧
      PcCore.if_get_replacement (PcCore.SV.ifS i it op p cp st) true =
        PcCore.SV.raw 0 ((PcCore.SV.ifS i it op p cp st).leadTrivia)) ∧
    (∀ i it op p cp st ek eb,
      PcCore.if_get_replacement (PcCore.SV.ifElseS i it op p cp st ek eb) false =
        PcCore.SV.raw 0
          ((PcCore.SV.ifElseS i it op p cp st ek eb).leadTrivia ++ PcCore.render st) ∧
      PcCore.if_get_replacement (PcCore.SV.ifElseS i it op p cp st ek eb) true =
        PcCore.SV.raw 0
          ((PcCore.SV.ifElseS i it op p cp st ek eb).leadTrivia ++ PcCore.render eb)) ∧
    (∀ (ren : PcCore.SV → String → PcCore.SV) (fname : String) (sw : PcCore.SV)
        (r : PcCore.Rewrite), r.num_selections = 2 →
      (PcCore.mkRuns ren fname sw [r]).map (·.index) = [0, 1] ∧
      (PcCore.mkRuns ren fname sw [r]).map (·.output_tree) =
        [ren (r.apply sw 1) (fname ++ "_pc" ++ toString r.start_index),
         ren (r.apply sw 2) (fname ++ "_pc" ++ toString (r.start_index + 1))]) := by
  refine ⟨PcCore.apply_zero, PcCore.apply_one, PcCore.apply_two, ?_, ?_, ?_, ?_⟩
  · intro i p q l c rr
    exact ⟨rfl, rfl⟩
  · intro i it op p cp st
    exact ⟨rfl, rfl⟩
  · intro i it op p cp st ek eb
    exact ⟨rfl, rfl⟩
  · intro ren fname sw r h2
    constructor
    · simp [PcCore.mkRuns, h2, List.range_succ]
    · simp [PcCore.mkRuns, h2, List.range_succ]

/-- Witness for C10 at the ternary rewrite of `exTree`: its two runs
use branch flags `False` then `True`. -/
theorem c10_apply_branch_semantics_witness :
    (PcCore.mkTernRewrite PcCore.exTern).num_selections = 2 ∧
    (PcCore.mkRuns (fun t _ => t) "m" PcCore.exTree
        [PcCore.mkTernRewrite PcCore.exTern]).map (·.index) = [0, 1] :=
  ⟨rfl, (c10_apply_branch_semantics.2.2.2.2.2.2 (fun t _ => t) "m" PcCore.exTree
      (PcCore.mkTernRewrite PcCore.exTern) rfl).1⟩

namespace PcCore

theorem assignFrom_forall_num {P : Nat → Prop} (idx : Nat) (rs : List Rewrite)
    (h : ∀ r ∈ rs, P r.num_selections) :
    ∀ r' ∈ assignFrom idx rs, P r'.num_selections := by
  induction rs generalizing idx with
  | nil =>
      intro r' hr'
      simp [assignFrom] at hr'
  | cons r rest ih =>
      intro r' hr'
      simp only [assignFrom, List.mem_cons] at hr'
      rcases hr' with rfl | hr'
      · exact h r (by simp)
      · exact ih (idx + r.num_selections) (fun a ha => h a (by simp [ha])) r' hr'

end PcCore

/-- Claim C7 (amended): `apply` replaces only the identity-matched node
(the context's rendering around it is untouched).  For an
IF-CONDITIONAL rewrite the leading trivia immediately preceding the
original statement is prepended to the chosen branch's rendering, so it
appears before the replacement in the output.  For a TERNARY rewrite,
however, the replacement is the chosen operand rendered with its OWN
leading trivia: the trivia immediately preceding the ternary is
dropped, not carried onto the replacement. -/
theorem c7_apply_trivia :
    (∀ (ctx : PcCore.Ctx) (i : Nat) (it op p cp st ek eb : PcCore.SV),
      PcCore.Ctx.safeB ctx
          (PcCore.make_matcher (PcCore.SV.ifElseS i it op p cp st ek eb))
          (PcCore.SV.ifElseS i it op p cp st ek eb) = true →
      PcCore.render ((PcCore.mkIfRewrite (PcCore.SV.ifElseS i it op p cp st ek eb)).apply
          (ctx.plug (PcCore.SV.ifElseS i it op p cp st ek eb)) 1) =
        ctx.pre ++ ((PcCore.SV.ifElseS i it op p cp st ek eb).leadTrivia ++
          PcCore.render st) ++ ctx.post ∧
      PcCore.render ((PcCore.mkIfRewrite (PcCore.SV.ifElseS i it op p cp st ek eb)).apply
          (ctx.plug (PcCore.SV.ifElseS i it op p cp st ek eb)) 2) =
        ctx.pre ++ ((PcCore.SV.ifElseS i it op p cp st ek eb).leadTrivia ++
          PcCore.render eb) ++ ctx.post) ∧
    (∀ (ctx : PcCore.Ctx) (i : Nat) (it op p cp st : PcCore.SV),
      PcCore.Ctx.safeB ctx (PcCore.make_matcher (PcCore.SV.ifS i it op p cp st))
          (PcCore.SV.ifS i it op p cp st) = true →
      PcCore.render ((PcCore.mkIfRewrite (PcCore.SV.ifS i it op p cp st)).apply
          (ctx.plug (PcCore.SV.ifS i it op p cp st)) 1) =
        ctx.pre ++ ((PcCore.SV.ifS i it op p cp st).leadTrivia ++ PcCore.render st) ++
          ctx.post ∧
      PcCore.render ((PcCore.mkIfRewrite (PcCore.SV.ifS i it op p cp st)).apply
          (ctx.plug (PcCore.SV.ifS i it op p cp st)) 2) =
        ctx.pre ++ (PcCore.SV.ifS i it op p cp st).leadTrivia ++ ctx.post) ∧
    (∀ (ctx : PcCore.Ctx) (i : Nat) (p q l c rr : PcCore.SV),
      PcCore.Ctx.safeB ctx (PcCore.make_matcher (PcCore.SV.tern i p q l c rr))
          (PcCore.SV.tern i p q l c rr) = true →
      PcCore.render ((PcCore.mkTernRewrite (PcCore.SV.tern i p q l c rr)).apply
          (ctx.plug (PcCore.SV.tern i p q l c rr)) 1) =
        ctx.pre ++ PcCore.render rr ++ ctx.post ∧
      PcCore.render ((PcCore.mkTernRewrite (PcCore.SV.tern i p q l c rr)).apply
          (ctx.plug (PcCore.SV.tern i p q l c rr)) 2) =
        ctx.pre ++ PcCore.render l ++ ctx.post) := by
  refine ⟨?_, ?_, ?_⟩
  · intro ctx i it op p cp st ek eb hs
    have hm : (PcCore.mkIfRewrite (PcCore.SV.ifElseS i it op p cp st ek eb)).matcher
        (PcCore.SV.ifElseS i it op p cp st ek eb) = true :=
      PcCore.sv_beq_self _
    constructor
    · rw [PcCore.apply_one, PcCore.rewriteSV_plug hm hs, PcCore.render_plug]
      rfl
    · rw [PcCore.apply_two, PcCore.rewriteSV_plug hm hs, PcCore.render_plug]
      rfl
  · intro ctx i it op p cp st hs
    have hm : (PcCore.mkIfRewrite (PcCore.SV.ifS i it op p cp st)).matcher
        (PcCore.SV.ifS i it op p cp st) = true :=
      PcCore.sv_beq_self _
    constructor
    · rw [PcCore.apply_one, PcCore.rewriteSV_plug hm hs, PcCore.render_plug]
      rfl
    · rw [PcCore.apply_two, PcCore.rewriteSV_plug hm hs, PcCore.render_plug]
      rfl
  · intro ctx i p q l c rr hs
    have hm : (PcCore.mkTernRewrite (PcCore.SV.tern i p q l c rr)).matcher
        (PcCore.SV.tern i p q l c rr) = true :=
      PcCore.sv_beq_self _
    constructor
    · rw [PcCore.apply_one, PcCore.rewriteSV_plug hm hs, PcCore.render_plug]
      rfl
    · rw [PcCore.apply_two, PcCore.rewriteSV_plug hm hs, PcCore.render_plug]
      rfl

/-- Witness for C7 on the concrete tree `assign a = b ? c : d;`: index
2 substitutes the true operand. -/
theorem c7_apply_trivia_witness :
    PcCore.Ctx.safeB
        (PcCore.Ctx.seqR 1 (PcCore.SV.tok "" "assign a =")
          (PcCore.Ctx.seqL 2 PcCore.Ctx.hole (PcCore.SV.tok "" ";")))
        (PcCore.make_matcher PcCore.exTern) PcCore.exTern = true ∧
    PcCore.render ((PcCore.mkTernRewrite PcCore.exTern).apply
        ((PcCore.Ctx.seqR 1 (PcCore.SV.tok "" "assign a =")
          (PcCore.Ctx.seqL 2 PcCore.Ctx.hole (PcCore.SV.tok "" ";"))).plug PcCore.exTern) 2) =
      (PcCore.Ctx.seqR 1 (PcCore.SV.tok "" "assign a =")
          (PcCore.Ctx.seqL 2 PcCore.Ctx.hole (PcCore.SV.tok "" ";"))).pre ++
        PcCore.render (PcCore.SV.tok " " "c") ++
        (PcCore.Ctx.seqR 1 (PcCore.SV.tok "" "assign a =")
          (PcCore.Ctx.seqL 2 PcCore.Ctx.hole (PcCore.SV.tok "" ";"))).post :=
  ⟨by decide,
    (c7_apply_trivia.2.2
      (PcCore.Ctx.seqR 1 (PcCore.SV.tok "" "assign a =")
        (PcCore.Ctx.seqL 2 PcCore.Ctx.hole (PcCore.SV.tok "" ";")))
      10 (PcCore.SV.tok " " "b") (PcCore.SV.tok " " "?") (PcCore.SV.tok " " "c")
      (PcCore.SV.tok " " ":") (PcCore.SV.tok " " "d") (by decide)).2⟩

/-- Claim C7 counterexample: a ternary whose leading trivia is the
block comment `/* keep */`.  Replacing it by its true operand yields
`assign a = c;` — the comment does not appear anywhere in the output,
so the leading trivia preceding the original node does NOT appear
before the replacement. -/
theorem c7_counterexample :
    PcCore.render PcCore.exTreeC = "assign a =/* keep */ b ? c : d;" ∧
    PcCore.render ((PcCore.mkTernRewrite PcCore.exTernC).apply PcCore.exTreeC 2) =
      "assign a = c;" ∧
    ¬ ("/* keep */".data <:+:
        (PcCore.render ((PcCore.mkTernRewrite PcCore.exTernC).apply PcCore.exTreeC 2)).data) := by
  refine ⟨rfl, rfl, by decide⟩

/-- Claim C4: for the Rewrites built by the if-conditional and ternary
locators, `apply_mux` replaces only the condition expression of the
matched construct — everything around it, including the construct's
other children, renders unchanged — substituting the guarded chain
`pc_sel{start_index+1} | (!pc_sel{start_index} & (original condition))`
built from the rewrite's two select bits `start_index` and
`start_index + 1`; and within one RewriteSet the `(start_index,
start_index + 1)` pairs of distinct rewrites are pairwise disjoint. -/
theorem c4_apply_mux_condition_only :
    (∀ (ctx : PcCore.Ctx) (i s : Nat) (p q l c rr : PcCore.SV),
      p.predicate = p →
      (ctx.comp (PcCore.Ctx.ternP i PcCore.Ctx.hole q l c rr)).safeB
          (PcCore.make_mux_matcher (PcCore.SV.tern i p q l c rr)) p = true →
      PcCore.render
          (({ PcCore.mkTernRewrite (PcCore.SV.tern i p q l c rr) with
              start_index := s } : PcCore.Rewrite).apply_mux
            (ctx.plug (PcCore.SV.tern i p q l c rr))) =
        ctx.pre ++ PcCore.muxText s (PcCore.render p) ++ PcCore.render q ++
          PcCore.render l ++ PcCore.render c ++ PcCore.render rr ++ ctx.post) ∧
    (∀ (ctx : PcCore.Ctx) (i s : Nat) (it op p cp st : PcCore.SV),
      (ctx.comp (PcCore.Ctx.ifP i it op PcCore.Ctx.hole cp st)).safeB
          (PcCore.make_mux_matcher (PcCore.SV.ifS i it op p cp st)) p = true →
      PcCore.render
          (({ PcCore.mkIfRewrite (PcCore.SV.ifS i it op p cp st) with
              start_index := s } : PcCore.Rewrite).apply_mux
            (ctx.plug (PcCore.SV.ifS i it op p cp st))) =
        ctx.pre ++ PcCore.render it ++ PcCore.render op ++
          PcCore.muxText s (PcCore.render p) ++ PcCore.render cp ++
          PcCore.render st ++ ctx.post) ∧
    (∀ (ctx : PcCore.Ctx) (i s : Nat) (it op p cp st ek eb : PcCore.SV),
      (ctx.comp (PcCore.Ctx.ifeP i it op PcCore.Ctx.hole cp st ek eb)).safeB
          (PcCore.make_mux_matcher (PcCore.SV.ifElseS i it op p cp st ek eb)) p = true →
      PcCore.render
          (({ PcCore.mkIfRewrite (PcCore.SV.ifElseS i it op p cp st ek eb) with
              start_index := s } : PcCore.Rewrite).apply_mux
            (ctx.plug (PcCore.SV.ifElseS i it op p cp st ek eb))) =
        ctx.pre ++ PcCore.render it ++ PcCore.render op ++
          PcCore.muxText s (PcCore.render p) ++ PcCore.render cp ++
          PcCore.render st ++ PcCore.render ek ++ PcCore.render eb ++ ctx.post) ∧
    (∀ rs : List PcCore.Rewrite, (∀ r ∈ rs, r.num_selections = 2) →
      ((PcCore.addAll PcCore.emptySet rs).rewrites.map
          (fun r => [r.start_index, r.start_index + 1])).Pairwise List.Disjoint) := by
  refine ⟨?_, ?_, ?_, ?_⟩
  · intro ctx i s p q l c rr hp hs
    have hm : (PcCore.make_mux_matcher (PcCore.SV.tern i p q l c rr)) p = true := by
      simp [PcCore.make_mux_matcher, PcCore.SV.predicate]
    have hplug : ctx.plug (PcCore.SV.tern i p q l c rr) =
        (ctx.comp (PcCore.Ctx.ternP i PcCore.Ctx.hole q l c rr)).plug p := by
      rw [PcCore.plug_comp]
      rfl
    have happ : ({ PcCore.mkTernRewrite (PcCore.SV.tern i p q l c rr) with
        start_index := s } : PcCore.Rewrite).apply_mux
          (ctx.plug (PcCore.SV.tern i p q l c rr)) =
        (ctx.comp (PcCore.Ctx.ternP i PcCore.Ctx.hole q l c rr)).plug
          (PcCore.tern_get_mux_replacement p s) := by
      rw [PcCore.Rewrite.apply_mux, hplug]
      exact PcCore.rewriteSV_plug hm hs
    rw [happ, PcCore.render_plug, PcCore.comp_pre, PcCore.comp_post,
      PcCore.tern_get_mux_replacement, hp]
    simp [PcCore.Ctx.pre, PcCore.Ctx.post, PcCore.render, String.append_assoc]
  · intro ctx i s it op p cp st hs
    have hm : (PcCore.make_mux_matcher (PcCore.SV.ifS i it op p cp st)) p = true := by
      simp [PcCore.make_mux_matcher, PcCore.SV.predicate]
    have hplug : ctx.plug (PcCore.SV.ifS i it op p cp st) =
        (ctx.comp (PcCore.Ctx.ifP i it op PcCore.Ctx.hole cp st)).plug p := by
      rw [PcCore.plug_comp]
      rfl
    have happ : ({ PcCore.mkIfRewrite (PcCore.SV.ifS i it op p cp st) with
        start_index := s } : PcCore.Rewrite).apply_mux
          (ctx.plug (PcCore.SV.ifS i it op p cp st)) =
        (ctx.comp (PcCore.Ctx.ifP i it op PcCore.Ctx.hole cp st)).plug
          (PcCore.if_get_mux_replacement p s) := by
      rw [PcCore.Rewrite.apply_mux, hplug]
      exact PcCore.rewriteSV_plug hm hs
    rw [happ, PcCore.render_plug, PcCore.comp_pre, PcCore.comp_post]
    simp [PcCore.Ctx.pre, PcCore.Ctx.post, PcCore.if_get_mux_replacement, PcCore.render,
      String.append_assoc]
  · intro ctx i s it op p cp st ek eb hs
    have hm : (PcCore.make_mux_matcher (PcCore.SV.ifElseS i it op p cp st ek eb)) p
        = true := by
      simp [PcCore.make_mux_matcher, PcCore.SV.predicate]
    have hplug : ctx.plug (PcCore.SV.ifElseS i it op p cp st ek eb) =
        (ctx.comp (PcCore.Ctx.ifeP i it op PcCore.Ctx.hole cp st ek eb)).plug p := by
      rw [PcCore.plug_comp]
      rfl
    have happ : ({ PcCore.mkIfRewrite (PcCore.SV.ifElseS i it op p cp st ek eb) with
        start_index := s } : PcCore.Rewrite).apply_mux
          (ctx.plug (PcCore.SV.ifElseS i it op p cp st ek eb)) =
        (ctx.comp (PcCore.Ctx.ifeP i it op PcCore.Ctx.hole cp st ek eb)).plug
          (PcCore.if_get_mux_replacement p s) := by
      rw [PcCore.Rewrite.apply_mux, hplug]
      exact PcCore.rewriteSV_plug hm hs
    rw [happ, PcCore.render_plug, PcCore.comp_pre, PcCore.comp_post]
    simp [PcCore.Ctx.pre, PcCore.Ctx.post, PcCore.if_get_mux_replacement, PcCore.render,
      String.append_assoc]
  · intro rs hnum
    have hrw : (PcCore.addAll PcCore.emptySet rs).rewrites = PcCore.assignFrom 0 rs := by
      simpa [PcCore.emptySet] using (PcCore.addAll_rewrites PcCore.emptySet rs).1
    rw [hrw]
    have hnum' : ∀ r' ∈ PcCore.assignFrom 0 rs, r'.num_selections = 2 :=
      @PcCore.assignFrom_forall_num (fun n => n = 2) 0 rs hnum
    have hmap : (PcCore.assignFrom 0 rs).map (fun r => [r.start_index, r.start_index + 1])
        = PcCore.indexRanges (PcCore.assignFrom 0 rs) := by
      rw [PcCore.indexRanges]
      apply List.map_congr_left
      intro r' hr'
      rw [hnum' r' hr']
      rfl
    rw [hmap]
    have hflat : (PcCore.indexRanges (PcCore.assignFrom 0 rs)).flatten =
        List.range' 0 ((rs.map (·.num_selections)).sum) :=
      PcCore.assignFrom_indexRanges_flatten 0 rs
    have hnd : ((PcCore.indexRanges (PcCore.assignFrom 0 rs)).flatten).Nodup := by
      rw [hflat]
      exact List.nodup_range' 0 _
    exact (List.nodup_flatten.mp hnd).2

/-- Witness for C4 at the concrete tree `assign a = b ? c : d;` with
select index 0: only the condition is replaced by the guarded chain. -/
theorem c4_apply_mux_condition_only_witness :
    (PcCore.SV.tok " " "b").predicate = PcCore.SV.tok " " "b" ∧
    ((PcCore.Ctx.seqR 1 (PcCore.SV.tok "" "assign a =")
        (PcCore.Ctx.seqL 2 PcCore.Ctx.hole (PcCore.SV.tok "" ";"))).comp
      (PcCore.Ctx.ternP 10 PcCore.Ctx.hole (PcCore.SV.tok " " "?") (PcCore.SV.tok " " "c")
        (PcCore.SV.tok " " ":") (PcCore.SV.tok " " "d"))).safeB
      (PcCore.make_mux_matcher PcCore.exTern) (PcCore.SV.tok " " "b") = true ∧
    PcCore.render
        (({ PcCore.mkTernRewrite PcCore.exTern with start_index := 0 } :
            PcCore.Rewrite).apply_mux
          ((PcCore.Ctx.seqR 1 (PcCore.SV.tok "" "assign a =")
            (PcCore.Ctx.seqL 2 PcCore.Ctx.hole (PcCore.SV.tok "" ";"))).plug
              PcCore.exTern)) =
      (PcCore.Ctx.seqR 1 (PcCore.SV.tok "" "assign a =")
          (PcCore.Ctx.seqL 2 PcCore.Ctx.hole (PcCore.SV.tok "" ";"))).pre ++
        PcCore.muxText 0 (PcCore.render (PcCore.SV.tok " " "b")) ++
        PcCore.render (PcCore.SV.tok " " "?") ++ PcCore.render (PcCore.SV.tok " " "c") ++
        PcCore.render (PcCore.SV.tok " " ":") ++ PcCore.render (PcCore.SV.tok " " "d") ++
        (PcCore.Ctx.seqR 1 (PcCore.SV.tok "" "assign a =")
          (PcCore.Ctx.seqL 2 PcCore.Ctx.hole (PcCore.SV.tok "" ";"))).post :=
  ⟨rfl, by decide,
    c4_apply_mux_condition_only.1
      (PcCore.Ctx.seqR 1 (PcCore.SV.tok "" "assign a =")
        (PcCore.Ctx.seqL 2 PcCore.Ctx.hole (PcCore.SV.tok "" ";")))
      10 0 (PcCore.SV.tok " " "b") (PcCore.SV.tok " " "?") (PcCore.SV.tok " " "c")
      (PcCore.SV.tok " " ":") (PcCore.SV.tok " " "d") rfl (by decide)⟩

namespace PcCore

theorem sum_map_num_two (rs : List Rewrite) (h2 : ∀ r ∈ rs, r.num_selections = 2) :
    (rs.map (·.num_selections)).sum = 2 * rs.length := by
  induction rs with
  | nil => simp
  | cons r rest ih =>
      simp only [List.map_cons, List.sum_cons, List.length_cons]
      rw [h2 r (by simp), ih (fun a ha => h2 a (by simp [ha]))]
      ring

theorem muxText_parts (s : Nat) (cond : String) :
    muxText s cond =
      "(" ++ selPortName (s + 1) ++ " | (!" ++ selPortName s ++ " & (" ++
        cond ++ ")))" := by
  calc muxText s cond
      = "(pc_sel" ++ (toString (s + 1) ++ (" | (!pc_sel" ++ (toString s ++
          (" & (" ++ (cond ++ ")))"))))) := by
        simp [muxText, String.append_assoc]
    _ = ("(" ++ "pc_sel") ++ (toString (s + 1) ++ ((" | (!" ++ "pc_sel") ++
          (toString s ++ (" & (" ++ (cond ++ ")))"))))) := rfl
    _ = "(" ++ selPortName (s + 1) ++ " | (!" ++ selPortName s ++ " & (" ++
          cond ++ ")))" := by
        simp only [selPortName, String.append_assoc]

end PcCore

/-- Claim C8: for the RewriteSet built from one if-conditional site and
one ternary site (2 selections each), `main` passes the total 4 to
`add_select_inputs`, which inserts exactly the 4 new input ports
`pc_sel1 .. pc_sel4` (pairwise distinct) immediately after the opening
parenthesis of the port list, while the pre-existing port text `ports`
is preserved verbatim — no other port changes. -/
theorem c8_four_new_select_ports (t1 t2 : PcCore.SV) (pre ports tail : String)
    (hp : ports ≠ "") :
    ((PcCore.addAll PcCore.emptySet
        [PcCore.mkIfRewrite t1, PcCore.mkTernRewrite t2]).rewrites.map
          (·.num_selections)).sum = 4 ∧
    PcCore.selPortNames 4 = ["pc_sel1", "pc_sel2", "pc_sel3", "pc_sel4"] ∧
    (PcCore.selPortNames 4).length = 4 ∧
    (PcCore.selPortNames 4).Nodup ∧
    PcCore.add_select_inputs pre ports tail
        (((PcCore.addAll PcCore.emptySet
          [PcCore.mkIfRewrite t1, PcCore.mkTernRewrite t2]).rewrites.map
            (·.num_selections)).sum) =
      pre ++ "(" ++ "input logic pc_sel1, pc_sel2, pc_sel3, pc_sel4" ++ ", " ++
        ports ++ ")" ++ tail := by
  refine ⟨rfl, by decide, by decide, by decide, ?_⟩
  have hsum : ((PcCore.addAll PcCore.emptySet
      [PcCore.mkIfRewrite t1, PcCore.mkTernRewrite t2]).rewrites.map
        (·.num_selections)).sum = 4 := rfl
  rw [hsum]
  have hsel : PcCore.sel_str 4 = "input logic pc_sel1, pc_sel2, pc_sel3, pc_sel4" := by
    decide
  simp [PcCore.add_select_inputs, hp, hsel]

/-- Witness for C8 with a concrete one-port module decomposition. -/
theorem c8_four_new_select_ports_witness :
    ("input logic a" : String) ≠ "" ∧
    PcCore.add_select_inputs "module top " "input logic a" ";endmodule"
        (((PcCore.addAll PcCore.emptySet
          [PcCore.mkIfRewrite (PcCore.SV.raw 31 "if1"),
           PcCore.mkTernRewrite (PcCore.SV.raw 32 "tern1")]).rewrites.map
            (·.num_selections)).sum) =
      "module top " ++ "(" ++ "input logic pc_sel1, pc_sel2, pc_sel3, pc_sel4" ++
        ", " ++ "input logic a" ++ ")" ++ ";endmodule" :=
  ⟨by decide,
    (c8_four_new_select_ports (PcCore.SV.raw 31 "if1") (PcCore.SV.raw 32 "tern1")
      "module top " "input logic a" ";endmodule" (by decide)).2.2.2.2⟩

/-- Claim C9: for a non-empty RewriteSet of locator rewrites (2
selections each, first `start_index` 0), each mux replacement
references exactly the identifiers `pc_sel{start_index}` and
`pc_sel{start_index+1}` — the referenced select indices flatten to
`[0, total_selections)` — while `add_select_inputs`, called by `main`
with `total_selections`, declares ports `pc_sel1 .. pc_sel{total}`
(indices `[1, total]`).  Hence index 0 (identifier `pc_sel0`) is
referenced by the mux-encoded design but is not among the added ports,
and the highest added port index `total` (identifier
`pc_sel{total}`) is referenced by no mux replacement. -/
theorem c9_select_port_off_by_one (rs : List PcCore.Rewrite) (hne : rs ≠ [])
    (h2 : ∀ r ∈ rs, r.num_selections = 2) :
    (∀ (s : Nat) (cond : String),
      PcCore.muxText s cond =
        "(" ++ PcCore.selPortName (s + 1) ++ " | (!" ++ PcCore.selPortName s ++
          " & (" ++ cond ++ ")))") ∧
    (∀ (target node : PcCore.SV) (s : Nat),
      (PcCore.mkTernRewrite target).get_mux_replacement node s =
        PcCore.SV.raw 0 (PcCore.muxText s (PcCore.render node.predicate)) ∧
      (PcCore.mkIfRewrite target).get_mux_replacement node s =
        PcCore.SV.raw 0 (PcCore.muxText s (PcCore.render node))) ∧
    ((PcCore.addAll PcCore.emptySet rs).rewrites.map
        (fun r => [r.start_index, r.start_index + 1])).flatten =
      List.range (2 * rs.length) ∧
    ((PcCore.addAll PcCore.emptySet rs).rewrites.map (·.num_selections)).sum =
      2 * rs.length ∧
    PcCore.selPortNames (2 * rs.length) =
      ((List.range (2 * rs.length)).map (· + 1)).map PcCore.selPortName ∧
    0 ∈ List.range (2 * rs.length) ∧
    0 ∉ (List.range (2 * rs.length)).map (· + 1) ∧
    2 * rs.length ∈ (List.range (2 * rs.length)).map (· + 1) ∧
    2 * rs.length ∉ List.range (2 * rs.length) := by
  have hlen : 0 < rs.length := List.length_pos.mpr hne
  have hrw : (PcCore.addAll PcCore.emptySet rs).rewrites = PcCore.assignFrom 0 rs := by
    simpa [PcCore.emptySet] using (PcCore.addAll_rewrites PcCore.emptySet rs).1
  have hnum' : ∀ r' ∈ PcCore.assignFrom 0 rs, r'.num_selections = 2 :=
    @PcCore.assignFrom_forall_num (fun n => n = 2) 0 rs h2
  refine ⟨fun s cond => PcCore.muxText_parts s cond, fun target node s => ⟨rfl, rfl⟩,
    ?_, ?_, ?_, ?_, ?_, ?_, ?_⟩
  · rw [hrw]
    have hmap : (PcCore.assignFrom 0 rs).map
        (fun r => [r.start_index, r.start_index + 1]) =
        PcCore.indexRanges (PcCore.assignFrom 0 rs) := by
      rw [PcCore.indexRanges]
      apply List.map_congr_left
      intro r' hr'
      rw [hnum' r' hr']
      rfl
    rw [hmap, PcCore.assignFrom_indexRanges_flatten, PcCore.sum_map_num_two rs h2,
      List.range_eq_range']
  · rw [hrw, PcCore.assignFrom_map_num, PcCore.sum_map_num_two rs h2]
  · rw [PcCore.selPortNames, List.map_map]
    rfl
  · simp [List.mem_range]
    omega
  · simp [List.mem_map]
  · simp only [List.mem_map, List.mem_range]
    exact ⟨2 * rs.length - 1, by omega, by omega⟩
  · simp [List.mem_range]

/-- Witness for C9 with the two locator rewrites of `c2rs`: the select
indices referenced by the mux replacements are `[0, 1, 2, 3]` while
the declared ports are `pc_sel1 .. pc_sel4`, so `pc_sel0` is referenced
but undeclared and `pc_sel4` declared but unreferenced. -/
theorem c9_select_port_off_by_one_witness :
    PcCore.c2rs ≠ [] ∧ (∀ r ∈ PcCore.c2rs, r.num_selections = 2) ∧
    ((PcCore.addAll PcCore.emptySet PcCore.c2rs).rewrites.map
        (fun r => [r.start_index, r.start_index + 1])).flatten =
      List.range (2 * PcCore.c2rs.length) ∧
    PcCore.selPortNames (2 * PcCore.c2rs.length) = ["pc_sel1", "pc_sel2", "pc_sel3", "pc_sel4"] ∧
    ("pc_sel0" : String) ∉ PcCore.selPortNames (2 * PcCore.c2rs.length) ∧
    ("pc_sel4" : String) ∈ PcCore.selPortNames (2 * PcCore.c2rs.length) ∧
    (4 : Nat) ∉ ((PcCore.addAll PcCore.emptySet PcCore.c2rs).rewrites.map
        (fun r => [r.start_index, r.start_index + 1])).flatten :=
  have hne : PcCore.c2rs ≠ [] := by simp [PcCore.c2rs]
  have h2 : ∀ r ∈ PcCore.c2rs, r.num_selections = 2 := by
    intro r hr
    simp only [PcCore.c2rs, List.mem_cons, List.not_mem_nil, or_false] at hr
    rcases hr with rfl | rfl <;> rfl
  ⟨hne, h2, (c9_select_port_off_by_one PcCore.c2rs hne h2).2.2.1,
    by decide, by decide, by decide,
    by rw [(c9_select_port_off_by_one PcCore.c2rs hne h2).2.2.1]; decide⟩
